import Mathlib

/-!
# Policy-gated action gateways

A shallow embedding of the two gateways of the repository:

* `docker/main.go`: the rule-file store (`getPoliciesHandler`, `addPolicyHandler`,
  `deletePolicyHandler`), the decision client `queryOPA` and the action gate
  `runDockerContainer`;
* `kubernetes/main.go`: the admission gate `admitPodCreation` and the fault mapper
  `toAdmissionResponse`.

Go strings and byte slices are lists of characters: the rule file and the requests are taken
to be UTF-8 text, on which splitting at newlines, substring search and concatenation by bytes
and by characters agree. A Go `error` is its message: `Option GoError` is a possibly-nil
`error`. Calls that leave the process
(file I/O, the HTTP call to the engine, the JSON codec, `docker run`, the embedded
Rego evaluation) are parameters of the embedding, so every theorem holds for every outcome
of those calls.
-/

set_option linter.dupNamespace false

namespace OpaGateway

/-! ## Go values -/

/-- A Go `string` (or `[]byte`). -/
abbrev GoString := List Char

/-- The message of a non-nil Go `error`. -/
abbrev GoError := List Char

/-- What `encoding/json` (or the Rego evaluator) stores in an `interface{}`. -/
inductive GoValue where
  | nil
  | bool (b : Bool)
  | float64 (digits : GoString)
  | string (s : GoString)
  | slice (xs : List GoValue)
  | map (kv : List (GoString × GoValue))

/-- A Go `map[string]interface{}`, as its key/value pairs. -/
abbrev GoMap := List (GoString × GoValue)

/-- The index expression `m[k]` on a `map[string]interface{}`: the nil interface when `k` is not a key. -/
def mapIndex (m : GoMap) (k : GoString) : GoValue :=
  match m.lookup k with
  | some v => v
  | none => GoValue.nil

/-- The two-valued type assertion `v.(bool)`. -/
def assertBool : GoValue → Bool × Bool
  | GoValue.bool b => (b, true)
  | _ => (false, false)

/-! ## HTTP responses -/

/-- What a handler wrote to its `http.ResponseWriter`. -/
structure HTTPResponse where
  status : Nat
  body : GoString
  deriving DecidableEq, Repr

def StatusOK : Nat := 200
def StatusCreated : Nat := 201
def StatusBadRequest : Nat := 400
def StatusForbidden : Nat := 403
def StatusInternalServerError : Nat := 500

/-- The library call `http.Error(w, msg, code)`: the status line and the message followed by a newline. -/
def httpError (msg : GoString) (code : Nat) : HTTPResponse :=
  { status := code, body := msg ++ ['\n'] }

/-! ## docker/main.go: decision client and action gate -/

/-- The collaborators of `queryOPA`: `json.Marshal` of the query document built for an image name,
`http.Post` of those bytes to the engine (giving the reply body), and the JSON decoding of the
reply into a `map[string]interface{}`. -/
structure Engine where
  marshal : GoString → Except GoError GoString
  post : GoString → Except GoError GoString
  decode : GoString → Except GoError GoMap

/-- The Go function `queryOPA(imageName) (bool, error)`. -/
def queryOPA (opa : Engine) (imageName : GoString) : Bool × Option GoError :=
  match opa.marshal imageName with
  | Except.error err => (false, some err)
  | Except.ok inputBytes =>
    match opa.post inputBytes with
    | Except.error err => (false, some err)
    | Except.ok body =>
      match opa.decode body with
      | Except.error err => (false, some err)
      | Except.ok result =>
        let r := assertBool (mapIndex result "result".toList)
        if !r.2 then
          (false, some "policy evaluation did not return a boolean result".toList)
        else
          (r.1, none)

/-- The observable steps of one request to the action gate, in program order. -/
inductive Event where
  | query (imageName : GoString) (allowed : Bool) (err : Option GoError)
  | exec (argv : List GoString)
  deriving DecidableEq, Repr

/-- The host of the docker gateway: the policy engine and the outcome of running a command
(`cmd.Run()`, nil on success). -/
structure Host where
  opa : Engine
  run : List GoString → Option GoError

/-- The command line built by `exec.Command("docker", "run", "--rm", "-d", imageName)`. -/
def dockerRunArgv (imageName : GoString) : List GoString :=
  ["docker".toList, "run".toList, "--rm".toList, "-d".toList, imageName]

/-- The Go handler `runDockerContainer`: the response written and the steps taken. -/
def runDockerContainer (h : Host) (imageName : GoString) : HTTPResponse × List Event :=
  let q := queryOPA h.opa imageName
  let t := [Event.query imageName q.1 q.2]
  match q.2 with
  | some err => (httpError err StatusInternalServerError, t)
  | none =>
    if !q.1 then
      (httpError "Policy violation: Image not allowed".toList StatusForbidden, t)
    else
      let argv := dockerRunArgv imageName
      match h.run argv with
      | some err => (httpError err StatusInternalServerError, t ++ [Event.exec argv])
      | none =>
        ({ status := StatusOK, body := "Container running with image ".toList ++ imageName },
          t ++ [Event.exec argv])

/-- Number of commands executed in a trace. -/
def execCount : List Event → Nat
  | [] => 0
  | Event.exec _ :: t => execCount t + 1
  | Event.query _ _ _ :: t => execCount t

/-! ## docker/main.go: library functions used by the rule store -/

/-- The library call `strings.Split(s, "\n")`: the pieces of `s` between newlines
(one piece more than there are newlines; `[""]` for the empty string). -/
def Split : GoString → List GoString
  | [] => [[]]
  | c :: cs =>
    if c = '\n' then [] :: Split cs
    else
      match Split cs with
      | [] => [[c]]
      | l :: ls => (c :: l) :: ls

/-- The library call `strings.HasPrefix(s, p)`. -/
def startsWith : GoString → GoString → Bool
  | _, [] => true
  | [], _ :: _ => false
  | a :: s, b :: p => a == b && startsWith s p

/-- The library call `strings.Contains(s, substr)`: `substr` occurs at some offset of `s`. -/
def Contains : GoString → GoString → Bool
  | [], substr => startsWith [] substr
  | c :: cs, substr => startsWith (c :: cs) substr || Contains cs substr

/-- The digit table `lowerhex` of `strconv`. -/
def lowerhex : GoString := "0123456789abcdef".toList

/-- The table lookup `lowerhex[n & 0xF]`. -/
def hexDigit (n : Nat) : Char := lowerhex.getD (n % 16) '0'

/-- The library function `strconv.IsPrint`; `table` stands for its Unicode tables, which are
consulted only above Latin-1. -/
def IsPrint (table : Char → Bool) (r : Char) : Bool :=
  if r.toNat ≤ 0xFF then
    if 0x20 ≤ r.toNat ∧ r.toNat < 0x7F then true
    else if 0xA1 ≤ r.toNat then r.toNat != 0xAD
    else false
  else table r

/-- The library function `appendEscapedRune` of `strconv` for the quote `"` (what it appends for
one rune). -/
def escapeRune (table : Char → Bool) (r : Char) : GoString :=
  if r = '"' ∨ r = '\\' then ['\\', r]
  else if IsPrint table r then [r]
  else if r = '\x07' then ['\\', 'a']
  else if r = '\x08' then ['\\', 'b']
  else if r = '\x0c' then ['\\', 'f']
  else if r = '\n' then ['\\', 'n']
  else if r = '\r' then ['\\', 'r']
  else if r = '\t' then ['\\', 't']
  else if r = '\x0b' then ['\\', 'v']
  else if r.toNat < 0x20 ∨ r.toNat = 0x7f then
    ['\\', 'x', hexDigit (r.toNat / 16), hexDigit r.toNat]
  else if r.toNat < 0x10000 then
    ['\\', 'u', hexDigit (r.toNat / 2 ^ 12), hexDigit (r.toNat / 2 ^ 8),
      hexDigit (r.toNat / 2 ^ 4), hexDigit r.toNat]
  else
    ['\\', 'U', hexDigit (r.toNat / 2 ^ 28), hexDigit (r.toNat / 2 ^ 24),
      hexDigit (r.toNat / 2 ^ 20), hexDigit (r.toNat / 2 ^ 16), hexDigit (r.toNat / 2 ^ 12),
      hexDigit (r.toNat / 2 ^ 8), hexDigit (r.toNat / 2 ^ 4), hexDigit r.toNat]

/-- The escaped runes of `s`, in order (the loop of `appendQuotedWith`). -/
def escapeAll (table : Char → Bool) : GoString → GoString
  | [] => []
  | r :: s => escapeRune table r ++ escapeAll table s

/-- The library function `strconv.Quote`, which is what the verb `%q` of `fmt` prints for a
string: a double-quoted Go string literal. Its argument here is a field decoded by
`encoding/json`, hence valid UTF-8, so the branch of `appendQuotedWith` for a byte that is not
UTF-8 is not reached. -/
def Quote (table : Char → Bool) (s : GoString) : GoString :=
  '"' :: (escapeAll table s ++ ['"'])

/-! ## docker/main.go: the rule store -/

/-- The Go struct `Policy`. -/
structure Policy where
  Name : GoString
  Rule : GoString
  deriving DecidableEq, Repr

/-- The rule file `docker.rego` as the handlers see it: what `ioutil.ReadFile` returns now, how
an `ioutil.WriteFile` would end (nil: it succeeds and the file holds the data written; an error:
the file then reads as `afterFailedWrite`, which the code does not control), and how many times
`ioutil.WriteFile` has been called. -/
structure RegoFile where
  content : Except GoError GoString
  writeError : Option GoError
  afterFailedWrite : Except GoError GoString
  writes : Nat

/-- The library call `ioutil.WriteFile(dockerRegoFile, data, 0644)`. -/
def WriteFile (f : RegoFile) (data : GoString) : Option GoError × RegoFile :=
  match f.writeError with
  | none => (none, { f with content := Except.ok data, writes := f.writes + 1 })
  | some err => (some err, { f with content := f.afterFailedWrite, writes := f.writes + 1 })

/-- The text `fmt.Sprintf("Failed to read %s: %s", dockerRegoFile, err)`. -/
def failedToRead (err : GoError) : GoString :=
  "Failed to read docker.rego: ".toList ++ err

/-- The text `fmt.Sprintf("Failed to write %s: %s", dockerRegoFile, err)`. -/
def failedToWrite (err : GoError) : GoString :=
  "Failed to write docker.rego: ".toList ++ err

/-- The Go handler `getPoliciesHandler` (List). -/
def getPoliciesHandler (f : RegoFile) : HTTPResponse :=
  match f.content with
  | Except.error err => httpError (failedToRead err) StatusInternalServerError
  | Except.ok content => { status := StatusOK, body := content }

/-- The text `fmt.Sprintf("\n%s = %q", name, rule)`. -/
def ruleEntry (table : Char → Bool) (p : Policy) : GoString :=
  '\n' :: (p.Name ++ (" = ".toList ++ Quote table p.Rule))

/-- The Go handler `addPolicyHandler` (Append); `decoded` is the outcome of decoding the request
body into a `Policy`. -/
def addPolicyHandler (table : Char → Bool) (decoded : Except GoError Policy) (f : RegoFile) :
    HTTPResponse × RegoFile :=
  match decoded with
  | Except.error _ => (httpError "Invalid JSON payload".toList StatusBadRequest, f)
  | Except.ok newPolicy =>
    match f.content with
    | Except.error err => (httpError (failedToRead err) StatusInternalServerError, f)
    | Except.ok content =>
      let content := content ++ ruleEntry table newPolicy
      match WriteFile f content with
      | (some err, f1) => (httpError (failedToWrite err) StatusInternalServerError, f1)
      | (none, f1) => ({ status := StatusCreated, body := [] }, f1)

/-- The loop of `deletePolicyHandler` over the lines, started with `updatedContent`. -/
def dropLines (name : GoString) : List GoString → GoString → GoString
  | [], updatedContent => updatedContent
  | line :: lines, updatedContent =>
    if !Contains line name then dropLines name lines (updatedContent ++ (line ++ ['\n']))
    else dropLines name lines updatedContent

/-- The Go handler `deletePolicyHandler` (Remove); `name` is the route variable. -/
def deletePolicyHandler (name : GoString) (f : RegoFile) : HTTPResponse × RegoFile :=
  match f.content with
  | Except.error err => (httpError (failedToRead err) StatusInternalServerError, f)
  | Except.ok content =>
    let updatedContent := dropLines name (Split content) []
    match WriteFile f updatedContent with
    | (some err, f1) => (httpError (failedToWrite err) StatusInternalServerError, f1)
    | (none, f1) => ({ status := StatusOK, body := [] }, f1)

/-- A line of the rule file that is an entry `<name> = "<body>"`: a name without newline, then
` = `, then a double-quoted body without raw newline. -/
def IsEntry (line : GoString) : Prop :=
  ∃ name body : GoString, '\n' ∉ name ∧ '\n' ∉ body ∧
    line = name ++ (" = ".toList ++ ('"' :: (body ++ ['"'])))

/-- The rule-file format: every non-empty line is an entry. -/
def WellFormed (content : GoString) : Prop :=
  ∀ line ∈ Split content, line ≠ [] → IsEntry line

/-- The concatenation of lines, in order, each followed by a newline (the file a Remove is
specified to leave, given the lines it keeps). -/
def terminated : List GoString → GoString
  | [] => []
  | line :: lines => line ++ '\n' :: terminated lines

/-- The lines Remove is specified to keep: the lines of the content, split on newlines, that do
not contain the name as a substring, in their original order. -/
def keptLines (name content : GoString) : List GoString :=
  (Split content).filter (fun line => !Contains line name)

/-! ## kubernetes/main.go: the admission gate

The Kubernetes API structs are reduced to the fields the gateway reads or sets, plus the
correlation identity `UID` of request and response; a field the code leaves out of a
composite literal has Go's zero value. -/

/-- The struct `metav1.StatusCause`. -/
structure StatusCause where
  Type_ : GoString
  Message : GoString
  Field : GoString := []
  deriving DecidableEq, Repr

/-- The struct `metav1.StatusDetails`. -/
structure StatusDetails where
  Causes : List StatusCause
  deriving DecidableEq, Repr

/-- The struct `metav1.Status`. -/
structure Status where
  Status : GoString := []
  Message : GoString := []
  Reason : GoString := []
  Details : Option StatusDetails := none
  Code : Int := 0
  deriving DecidableEq, Repr

def StatusSuccess : GoString := "Success".toList
def StatusFailure : GoString := "Failure".toList
def StatusReasonForbidden : GoString := "Forbidden".toList

/-- The struct `v1.AdmissionResponse`. -/
structure AdmissionResponse where
  UID : GoString := []
  Allowed : Bool
  Result : Option Status := none
  deriving DecidableEq, Repr

/-- The struct `runtime.RawExtension`. -/
structure RawExtension where
  Raw : GoString := []
  Object : GoValue := GoValue.nil

/-- The struct `v1.AdmissionRequest`. -/
structure AdmissionRequest where
  UID : GoString := []
  Namespace : GoString := []
  Operation : GoString := []
  Object : RawExtension := {}

/-- The struct `v1.AdmissionReview`; `Request` and `Response` are pointers, `none` is nil. -/
structure AdmissionReview where
  Request : Option AdmissionRequest := none
  Response : Option AdmissionResponse := none

/-- One element of a `rego.ResultSet`. -/
structure Result where
  Bindings : GoMap

/-- The collaborators of `admitPodCreation`: `json.Unmarshal` of the object payload into a
`runtime.RawExtension`, and `policyDefinition.Eval` on the input document built from the
namespace, the operation and the object. -/
structure Admission where
  unmarshal : GoString → Except GoError RawExtension
  eval : GoString → GoString → GoValue → Except GoError (List Result)

/-- A run-time panic of the Go program. -/
inductive GoPanic where
  | nilPointerDereference
  deriving DecidableEq, Repr

/-- The Go function `toAdmissionResponse(review, err)`. -/
def toAdmissionResponse (_review : AdmissionReview) (err : GoError) : AdmissionReview :=
  let status : AdmissionResponse :=
    { Allowed := false
      Result := some { Status := StatusFailure, Message := err } }
  { Response := some status }

/-- The decision `admitPodCreation` extracts from the result set (its lines 109 to 112). -/
def extractDecision : List Result → Bool
  | [] => false
  | r :: _ => (assertBool (mapIndex r.Bindings "allow".toList)).1

/-- The admission review `admitPodCreation` formulates from the decision (its lines 115 to 139). -/
def formulate (decision : Bool) : AdmissionReview :=
  let status : AdmissionResponse :=
    if decision then
      { Allowed := decision
        Result := some { Status := StatusSuccess, Message := "Allowed by policy".toList } }
    else
      { Allowed := decision
        Result := some
          { Status := StatusFailure
            Message := "Denied by policy".toList
            Reason := StatusReasonForbidden
            Details := some
              { Causes :=
                  [{ Type_ := "PolicyViolation".toList
                     Message := "Pod creation denied by policy".toList }] } } }
  { Response := some status }

/-- The Go function `admitPodCreation(review)`; `review.Request` is dereferenced first, which
panics when it is nil. -/
def admitPodCreation (k : Admission) (review : AdmissionReview) : Except GoPanic AdmissionReview :=
  match review.Request with
  | none => Except.error GoPanic.nilPointerDereference
  | some req =>
    match k.unmarshal req.Object.Raw with
    | Except.error err =>
      Except.ok (toAdmissionResponse review ("failed to unmarshal pod: ".toList ++ err))
    | Except.ok obj =>
      match k.eval req.Namespace req.Operation obj.Object with
      | Except.error err =>
        Except.ok (toAdmissionResponse review ("policy evaluation error: ".toList ++ err))
      | Except.ok resultSet => Except.ok (formulate (extractDecision resultSet))

/-- The response has the structured reason block of a policy deny: reason `Forbidden` with a
cause of type `PolicyViolation`. -/
def HasPolicyViolation (r : AdmissionReview) : Prop :=
  ∃ resp st d, r.Response = some resp ∧ resp.Result = some st ∧
    st.Reason = StatusReasonForbidden ∧ st.Details = some d ∧
    ∃ c ∈ d.Causes, c.Type_ = "PolicyViolation".toList

/-! ## Concrete collaborators used to instantiate the theorems -/

/-- A host whose engine answers every query with the document `doc` and whose commands end
with `runs`. -/
def constHost (doc : Except GoError GoMap) (runs : Option GoError) : Host :=
  { opa :=
      { marshal := fun imageName => Except.ok imageName
        post := fun _ => Except.ok []
        decode := fun _ => doc }
    run := fun _ => runs }

/-- A readable, writable rule file holding `content`. -/
def fileWith (content : GoString) : RegoFile :=
  { content := Except.ok content, writeError := none, afterFailedWrite := Except.ok [], writes := 0 }

/-- A rule file with the rules `allow-nginx`, `allow-all` and `db`. -/
def threeRules : GoString :=
  "allow-nginx = \"a\"\nallow-all = \"b\"\ndb = \"c\"".toList

/-- A stand-in for the Unicode tables of `strconv.IsPrint`: every rune above Latin-1 printable. -/
def allPrintable : Char → Bool := fun _ => true

/-- An admission gateway whose payload decoding succeeds (keeping the raw bytes) and whose
policy evaluation ends with `rs`. -/
def constAdmission (rs : Except GoError (List Result)) : Admission :=
  { unmarshal := fun raw => Except.ok { Raw := raw }
    eval := fun _ _ _ => rs }

/-- An admission review for the creation of a pod, with correlation identity `uid`. -/
def podReview (uid : GoString) : AdmissionReview :=
  { Request := some
      { UID := uid
        Namespace := "default".toList
        Operation := "CREATE".toList
        Object := { Raw := ['{', '}'] } } }

/-! ## Theorems: the docker decision client and action gate -/

theorem queryOPA_cases (opa : Engine) (imageName : GoString) :
    (∃ err, queryOPA opa imageName = (false, some err)) ∨
      ∃ b, queryOPA opa imageName = (b, none) := by
  unfold queryOPA
  split
  · exact Or.inl ⟨_, rfl⟩
  · split
    · exact Or.inl ⟨_, rfl⟩
    · split
      · exact Or.inl ⟨_, rfl⟩
      · dsimp only
        split
        · exact Or.inl ⟨_, rfl⟩
        · exact Or.inr ⟨_, rfl⟩

theorem assertBool_found (v : GoValue) (b : Bool) :
    assertBool v = (b, true) ↔ v = GoValue.bool b := by
  cases v <;> simp [assertBool]

theorem assertBool_snd_false (v : GoValue) :
    (assertBool v).2 = false ↔ ∀ b, v ≠ GoValue.bool b := by
  cases v <;> simp [assertBool]

theorem mapIndex_eq_bool (m : GoMap) (k : GoString) (b : Bool) :
    mapIndex m k = GoValue.bool b ↔ m.lookup k = some (GoValue.bool b) := by
  unfold mapIndex
  cases h : m.lookup k <;> simp

/-- C3: given the document decoded from the engine's reply, `queryOPA` returns the verdict `b`
with a nil error exactly when the document's top-level field `result` holds the boolean `b`;
when `result` is absent or not a boolean it returns an error (and no verdict); and when
marshalling, the engine call or the decoding fails it returns that error. -/
theorem queryOPA_verdict (opa : Engine) (imageName : GoString) :
    (∀ inputBytes body result, opa.marshal imageName = Except.ok inputBytes →
        opa.post inputBytes = Except.ok body → opa.decode body = Except.ok result →
        (∀ b, queryOPA opa imageName = (b, none) ↔
            result.lookup "result".toList = some (GoValue.bool b)) ∧
        ((∀ b, result.lookup "result".toList ≠ some (GoValue.bool b)) →
            queryOPA opa imageName =
              (false, some "policy evaluation did not return a boolean result".toList))) ∧
    (∀ err, opa.marshal imageName = Except.error err →
        queryOPA opa imageName = (false, some err)) ∧
    (∀ inputBytes err, opa.marshal imageName = Except.ok inputBytes →
        opa.post inputBytes = Except.error err → queryOPA opa imageName = (false, some err)) ∧
    (∀ inputBytes body err, opa.marshal imageName = Except.ok inputBytes →
        opa.post inputBytes = Except.ok body → opa.decode body = Except.error err →
        queryOPA opa imageName = (false, some err)) := by
  refine ⟨?_, ?_, ?_, ?_⟩
  · intro inputBytes body result hm hp hd
    have hq : queryOPA opa imageName =
        if !(assertBool (mapIndex result "result".toList)).2 then
          (false, some "policy evaluation did not return a boolean result".toList)
        else ((assertBool (mapIndex result "result".toList)).1, none) := by
      simp [queryOPA, hm, hp, hd]
    constructor
    · intro b
      rw [hq, ← mapIndex_eq_bool, ← assertBool_found]
      cases hv : assertBool (mapIndex result "result".toList) with
      | mk v found => cases found <;> simp
    · intro hno
      have hf : (assertBool (mapIndex result "result".toList)).2 = false := by
        rw [assertBool_snd_false]
        intro b hb
        exact hno b ((mapIndex_eq_bool _ _ _).1 hb)
      rw [hq, hf]
      rfl
  · intro err hm
    simp [queryOPA, hm]
  · intro inputBytes err hm hp
    simp [queryOPA, hm, hp]
  · intro inputBytes body err hm hp hd
    simp [queryOPA, hm, hp, hd]

/-- C3, on concrete replies: a document `{"result": true}` gives the verdict, a document
without `result` and a failed decoding give an error. -/
theorem queryOPA_verdict_witness :
    queryOPA (constHost (Except.ok [("result".toList, GoValue.bool true)]) none).opa
        "nginx".toList = (true, none) ∧
    queryOPA (constHost (Except.ok [("allow".toList, GoValue.bool true)]) none).opa
        "nginx".toList =
      (false, some "policy evaluation did not return a boolean result".toList) ∧
    queryOPA (constHost (Except.error "EOF".toList) none).opa "nginx".toList =
      (false, some "EOF".toList) :=
  ⟨((queryOPA_verdict (constHost (Except.ok [("result".toList, GoValue.bool true)]) none).opa
        "nginx".toList).1 "nginx".toList [] _ rfl rfl rfl).1 true |>.2 rfl,
   ((queryOPA_verdict (constHost (Except.ok [("allow".toList, GoValue.bool true)]) none).opa
        "nginx".toList).1 "nginx".toList [] _ rfl rfl rfl).2 (by simp [List.lookup]),
   (queryOPA_verdict (constHost (Except.error "EOF".toList) none).opa
        "nginx".toList).2.2.2 "nginx".toList [] _ rfl rfl rfl⟩

theorem runDockerContainer_of_error (h : Host) (imageName : GoString) (err : GoError)
    (hq : queryOPA h.opa imageName = (false, some err)) :
    runDockerContainer h imageName =
      (httpError err StatusInternalServerError, [Event.query imageName false (some err)]) := by
  simp [runDockerContainer, hq]

theorem runDockerContainer_of_deny (h : Host) (imageName : GoString)
    (hq : queryOPA h.opa imageName = (false, none)) :
    runDockerContainer h imageName =
      (httpError "Policy violation: Image not allowed".toList StatusForbidden,
        [Event.query imageName false none]) := by
  simp [runDockerContainer, hq]

theorem runDockerContainer_of_allow (h : Host) (imageName : GoString)
    (hq : queryOPA h.opa imageName = (true, none)) :
    runDockerContainer h imageName =
      (match h.run (dockerRunArgv imageName) with
        | some err => httpError err StatusInternalServerError
        | none =>
          { status := StatusOK, body := "Container running with image ".toList ++ imageName },
        [Event.query imageName true none, Event.exec (dockerRunArgv imageName)]) := by
  simp only [runDockerContainer, hq]
  cases h.run (dockerRunArgv imageName) <;> simp

/-- C1: in `runDockerContainer`, when `queryOPA` returns an error or the verdict false, no
command is executed (zero `docker run` invocations); and whenever a command is executed, it is
the single `docker run --rm -d <imageName>`, it comes after the policy query for that same image
name, and that query returned the verdict true with a nil error. -/
theorem runDockerContainer_gated (h : Host) (imageName : GoString) :
    (((queryOPA h.opa imageName).2 ≠ none ∨ (queryOPA h.opa imageName).1 = false) →
        execCount (runDockerContainer h imageName).2 = 0 ∧
        ∀ argv, Event.exec argv ∉ (runDockerContainer h imageName).2) ∧
    (∀ argv, Event.exec argv ∈ (runDockerContainer h imageName).2 →
        queryOPA h.opa imageName = (true, none) ∧
        (runDockerContainer h imageName).2 =
          [Event.query imageName true none, Event.exec (dockerRunArgv imageName)]) := by
  rcases queryOPA_cases h.opa imageName with ⟨err, hq⟩ | ⟨b, hq⟩
  · rw [runDockerContainer_of_error h imageName err hq]
    simp [hq, execCount]
  · cases b
    · rw [runDockerContainer_of_deny h imageName hq]
      simp [hq, execCount]
    · rw [runDockerContainer_of_allow h imageName hq]
      simp [hq]

/-- C1, on concrete hosts: a deny and a fault execute nothing; the command executed under an
allow follows the query that allowed it. -/
theorem runDockerContainer_gated_witness :
    execCount (runDockerContainer
        (constHost (Except.ok [("result".toList, GoValue.bool false)]) none)
        "malicious".toList).2 = 0 ∧
    execCount (runDockerContainer (constHost (Except.error "EOF".toList) none)
        "nginx".toList).2 = 0 ∧
    (runDockerContainer (constHost (Except.ok [("result".toList, GoValue.bool true)]) none)
        "nginx".toList).2 =
      [Event.query "nginx".toList true none, Event.exec (dockerRunArgv "nginx".toList)] :=
  ⟨((runDockerContainer_gated
        (constHost (Except.ok [("result".toList, GoValue.bool false)]) none)
        "malicious".toList).1 (Or.inr rfl)).1,
   ((runDockerContainer_gated (constHost (Except.error "EOF".toList) none)
        "nginx".toList).1 (Or.inl (by simp [queryOPA, constHost]))).1,
   ((runDockerContainer_gated
        (constHost (Except.ok [("result".toList, GoValue.bool true)]) none)
        "nginx".toList).2 (dockerRunArgv "nginx".toList)
        (by simp [runDockerContainer, queryOPA, constHost, mapIndex, assertBool,
              List.lookup])).2⟩

/-- C2: the response of `runDockerContainer` is fixed by the verdict and the outcome of
`docker run`: allow and success give 200 with the body `Container running with image <imageName>`;
deny gives 403 with the policy-violation message; an evaluation fault gives 500 with the
fault's message; allow with a failed `docker run` gives 500 with the failure's message. Hence 403
is produced exactly for a deny (never for a fault) and 200 exactly for allow with success. -/
theorem runDockerContainer_response (h : Host) (imageName : GoString) :
    (queryOPA h.opa imageName = (true, none) → h.run (dockerRunArgv imageName) = none →
        (runDockerContainer h imageName).1 =
          { status := 200, body := "Container running with image ".toList ++ imageName }) ∧
    (queryOPA h.opa imageName = (false, none) →
        (runDockerContainer h imageName).1 =
          { status := 403, body := "Policy violation: Image not allowed".toList ++ ['\n'] }) ∧
    (∀ b err, queryOPA h.opa imageName = (b, some err) →
        (runDockerContainer h imageName).1 = { status := 500, body := err ++ ['\n'] }) ∧
    (∀ err, queryOPA h.opa imageName = (true, none) →
        h.run (dockerRunArgv imageName) = some err →
        (runDockerContainer h imageName).1 = { status := 500, body := err ++ ['\n'] }) ∧
    ((runDockerContainer h imageName).1.status = 403 ↔
        queryOPA h.opa imageName = (false, none)) ∧
    ((runDockerContainer h imageName).1.status = 200 ↔
        queryOPA h.opa imageName = (true, none) ∧ h.run (dockerRunArgv imageName) = none) ∧
    ((runDockerContainer h imageName).1.status = 200 ∨
      (runDockerContainer h imageName).1.status = 403 ∨
      (runDockerContainer h imageName).1.status = 500) := by
  rcases queryOPA_cases h.opa imageName with ⟨err, hq⟩ | ⟨b, hq⟩
  · rw [runDockerContainer_of_error h imageName err hq]
    simp [hq, httpError, StatusInternalServerError]
  · cases b
    · rw [runDockerContainer_of_deny h imageName hq]
      simp [hq, httpError, StatusForbidden]
    · rw [runDockerContainer_of_allow h imageName hq]
      cases hr : h.run (dockerRunArgv imageName) <;>
        simp [hq, httpError, StatusInternalServerError, StatusOK]

/-- C2, on concrete hosts: the four outcomes and their responses. -/
theorem runDockerContainer_response_witness :
    (runDockerContainer (constHost (Except.ok [("result".toList, GoValue.bool true)]) none)
        "nginx".toList).1 =
      { status := 200, body := "Container running with image nginx".toList } ∧
    (runDockerContainer (constHost (Except.ok [("result".toList, GoValue.bool false)]) none)
        "malicious".toList).1 =
      { status := 403, body := "Policy violation: Image not allowed".toList ++ ['\n'] } ∧
    (runDockerContainer (constHost (Except.error "EOF".toList) none) "nginx".toList).1 =
      { status := 500, body := "EOF".toList ++ ['\n'] } ∧
    (runDockerContainer
        (constHost (Except.ok [("result".toList, GoValue.bool true)]) (some "exit 125".toList))
        "nginx".toList).1 =
      { status := 500, body := "exit 125".toList ++ ['\n'] } :=
  ⟨(runDockerContainer_response
        (constHost (Except.ok [("result".toList, GoValue.bool true)]) none)
        "nginx".toList).1 rfl rfl,
   (runDockerContainer_response
        (constHost (Except.ok [("result".toList, GoValue.bool false)]) none)
        "malicious".toList).2.1 rfl,
   (runDockerContainer_response (constHost (Except.error "EOF".toList) none)
        "nginx".toList).2.2.1 false "EOF".toList rfl,
   (runDockerContainer_response
        (constHost (Except.ok [("result".toList, GoValue.bool true)]) (some "exit 125".toList))
        "nginx".toList).2.2.2.1 "exit 125".toList rfl rfl⟩

/-! ## Theorems: the rule store -/

theorem Split_ne_nil (s : GoString) : Split s ≠ [] := by
  cases s with
  | nil => simp [Split]
  | cons c cs =>
    unfold Split
    split
    · simp
    · split <;> simp

theorem Split_cons_newline (s : GoString) : Split ('\n' :: s) = [] :: Split s := by
  simp [Split]

theorem Split_append_newline (s x : GoString) :
    Split (s ++ '\n' :: x) = Split s ++ Split x := by
  induction s with
  | nil => simp [Split]
  | cons c cs ih =>
    by_cases hc : c = '\n'
    · simp [Split, hc, ih]
    · have hne := Split_ne_nil cs
      cases hs : Split cs with
      | nil => exact absurd hs hne
      | cons l ls => simp [Split, hc, ih, hs]

theorem Split_of_no_newline (s : GoString) (h : '\n' ∉ s) : Split s = [s] := by
  induction s with
  | nil => rfl
  | cons c cs ih =>
    have hc : c ≠ '\n' := fun e => h (by simp [e])
    have hcs : '\n' ∉ cs := fun e => h (List.mem_cons_of_mem _ e)
    simp [Split, hc, ih hcs]

theorem no_newline_of_mem_Split (s line : GoString) (h : line ∈ Split s) : '\n' ∉ line := by
  induction s generalizing line with
  | nil =>
    simp [Split] at h
    simp [h]
  | cons c cs ih =>
    by_cases hc : c = '\n'
    · simp [Split, hc] at h
      rcases h with h | h
      · simp [h]
      · exact ih line h
    · cases hs : Split cs with
      | nil => exact absurd hs (Split_ne_nil cs)
      | cons l ls =>
        simp [Split, hc, hs] at h
        rcases h with h | h
        · subst h
          have hl : '\n' ∉ l := ih l (by simp [hs])
          intro hm
          rcases List.mem_cons.1 hm with e | e
          · exact hc e.symm
          · exact hl e
        · exact ih line (by simp [hs, h])

theorem Split_terminated (lines : List GoString) (h : ∀ line ∈ lines, '\n' ∉ line) :
    Split (terminated lines) = lines ++ [[]] := by
  induction lines with
  | nil => rfl
  | cons l ls ih =>
    have hl : '\n' ∉ l := h l (by simp)
    have hls : ∀ line ∈ ls, '\n' ∉ line := fun line hm => h line (List.mem_cons_of_mem _ hm)
    simp [terminated, Split_append_newline, Split_of_no_newline l hl, ih hls]

theorem startsWith_iff (s p : GoString) : startsWith s p = true ↔ p <+: s := by
  induction s generalizing p with
  | nil => cases p <;> simp [startsWith]
  | cons a s ih =>
    cases p with
    | nil => simp [startsWith]
    | cons b p =>
      simp [startsWith, ih, List.cons_prefix_cons]
      intro _
      exact eq_comm

theorem Contains_iff (s substr : GoString) : Contains s substr = true ↔ substr <:+: s := by
  induction s with
  | nil => simp [Contains, startsWith_iff]
  | cons c cs ih =>
    simp only [Contains, Bool.or_eq_true, startsWith_iff, ih]
    exact (List.infix_cons_iff).symm

theorem dropLines_eq (name : GoString) (lines : List GoString) (acc : GoString) :
    dropLines name lines acc =
      acc ++ terminated (lines.filter (fun line => !Contains line name)) := by
  induction lines generalizing acc with
  | nil => simp [dropLines, terminated]
  | cons l ls ih =>
    by_cases hl : Contains l name = true
    · simp [dropLines, hl, ih]
    · simp [dropLines, hl, ih, terminated]

theorem hexDigit_ne_newline (n : Nat) : hexDigit n ≠ '\n' := by
  have h : ∀ i : Fin 16, lowerhex.getD i.val '0' ≠ '\n' := by decide
  exact h ⟨n % 16, Nat.mod_lt _ (by decide)⟩

theorem IsPrint_newline (table : Char → Bool) : IsPrint table '\n' = false := by
  simp [IsPrint]

theorem not_mem_ite {c : Prop} [Decidable c] {a : Char} {x y : GoString}
    (hx : a ∉ x) (hy : a ∉ y) : a ∉ (if c then x else y) := by
  by_cases h : c
  · rw [if_pos h]; exact hx
  · rw [if_neg h]; exact hy

theorem escapeRune_no_newline (table : Char → Bool) (r : Char) :
    '\n' ∉ escapeRune table r := by
  have hx := fun n => (hexDigit_ne_newline n).symm
  by_cases h1 : r = '"' ∨ r = '\\'
  · rw [escapeRune, if_pos h1]
    rcases h1 with h1 | h1 <;> simp [h1]
  · by_cases h2 : IsPrint table r = true
    · rw [escapeRune, if_neg h1, if_pos h2]
      have hr : r ≠ '\n' := fun e => by simp [e, IsPrint_newline] at h2
      simp [hr.symm]
    · rw [escapeRune, if_neg h1, if_neg h2]
      repeat' apply not_mem_ite
      all_goals simp [hx]

theorem escapeAll_no_newline (table : Char → Bool) (s : GoString) :
    '\n' ∉ escapeAll table s := by
  induction s with
  | nil => simp [escapeAll]
  | cons r s ih => simp [escapeAll, ih, escapeRune_no_newline]

theorem Quote_no_newline (table : Char → Bool) (s : GoString) : '\n' ∉ Quote table s := by
  simp [Quote, escapeAll_no_newline]

theorem no_newline_of_mem_keptLines (name content line : GoString)
    (h : line ∈ keptLines name content) : '\n' ∉ line :=
  no_newline_of_mem_Split content line (List.mem_filter.1 h).1

theorem deletePolicyHandler_ok (name content : GoString) (f : RegoFile)
    (hread : f.content = Except.ok content) (hwrite : f.writeError = none) :
    deletePolicyHandler name f =
      ({ status := StatusOK, body := [] },
        { f with content := Except.ok (terminated (keptLines name content))
                 writes := f.writes + 1 }) := by
  simp [deletePolicyHandler, hread, WriteFile, hwrite, dropLines_eq, keptLines]

theorem addPolicyHandler_ok (table : Char → Bool) (p : Policy) (content : GoString)
    (f : RegoFile) (hread : f.content = Except.ok content) (hwrite : f.writeError = none) :
    addPolicyHandler table (Except.ok p) f =
      ({ status := StatusCreated, body := [] },
        { f with content := Except.ok (content ++ ruleEntry table p)
                 writes := f.writes + 1 }) := by
  simp [addPolicyHandler, hread, WriteFile, hwrite]

/-- C7: when the read and the write succeed, `deletePolicyHandler` answers 200 and rewrites the
file to exactly the concatenation, in their original order, of the lines of the content (split
on newlines) that do not contain the name as a substring, each followed by a newline. So the lines
written are those lines and no other: none of them contains the name, every line without the
name is kept, every line that contains the name is removed; the rewritten file splits into
the kept lines and a final empty piece, so for a non-empty name no piece of it contains the
name. -/
theorem deletePolicyHandler_rewrites (name content : GoString) (f : RegoFile)
    (hread : f.content = Except.ok content) (hwrite : f.writeError = none) :
    (deletePolicyHandler name f).1 = { status := 200, body := [] } ∧
    (deletePolicyHandler name f).2.content = Except.ok (terminated (keptLines name content)) ∧
    List.Sublist (keptLines name content) (Split content) ∧
    (∀ line, line ∈ keptLines name content ↔ line ∈ Split content ∧ ¬ name <:+: line) ∧
    Split (terminated (keptLines name content)) = keptLines name content ++ [[]] ∧
    (name ≠ [] →
      ∀ line ∈ Split (terminated (keptLines name content)), ¬ name <:+: line) := by
  have hmem : ∀ line, line ∈ keptLines name content ↔
      line ∈ Split content ∧ ¬ name <:+: line := by
    intro line
    simp [keptLines, List.mem_filter, ← Contains_iff]
  have hsplit := Split_terminated (keptLines name content)
    (fun line h => no_newline_of_mem_keptLines name content line h)
  rw [deletePolicyHandler_ok name content f hread hwrite]
  refine ⟨rfl, rfl, List.filter_sublist _, hmem, hsplit, ?_⟩
  intro hne line hline
  rw [hsplit] at hline
  rcases List.mem_append.1 hline with h | h
  · exact ((hmem line).1 h).2
  · have hl : line = [] := by simpa using h
    subst hl
    intro hinf
    exact hne (List.eq_nil_of_infix_nil hinf)

/-- C7, Scenario 4: `Remove("allow")` on a file with the rules `allow-nginx`, `allow-all` and
`db` removes both `allow` rules and leaves `db`. -/
theorem deletePolicyHandler_rewrites_witness :
    (deletePolicyHandler "allow".toList (fileWith threeRules)).2.content =
        Except.ok "db = \"c\"\n".toList ∧
    Split "db = \"c\"\n".toList = ["db = \"c\"".toList, []] :=
  ⟨(deletePolicyHandler_rewrites "allow".toList threeRules (fileWith threeRules)
        rfl rfl).2.1.trans (congrArg Except.ok (by decide)),
   by decide⟩

/-- C8: when the request decodes and the read and the write succeed, `addPolicyHandler`
answers 201 and rewrites the file to exactly the previous content followed by a newline, the
name, ` = ` and the body as a double-quoted string literal; the previous content is a prefix of
the new one, and a following List answers 200 with a body that has the previous content as
prefix and contains the appended entry. When the request does not decode (status 400) or the file
cannot be read (status 500), the file is as before and no write was made. -/
theorem addPolicyHandler_appends (table : Char → Bool) (f : RegoFile) :
    (∀ (p : Policy) (content : GoString), f.content = Except.ok content →
        f.writeError = none →
        (addPolicyHandler table (Except.ok p) f).1 = { status := 201, body := [] } ∧
        (addPolicyHandler table (Except.ok p) f).2.content =
          Except.ok (content ++ ('\n' :: (p.Name ++ (" = ".toList ++ Quote table p.Rule)))) ∧
        (∃ escaped, Quote table p.Rule = '"' :: (escaped ++ ['"']) ∧ '\n' ∉ escaped) ∧
        getPoliciesHandler (addPolicyHandler table (Except.ok p) f).2 =
          { status := 200
            body := content ++ ('\n' :: (p.Name ++ (" = ".toList ++ Quote table p.Rule))) } ∧
        content <+: (getPoliciesHandler (addPolicyHandler table (Except.ok p) f).2).body ∧
        (p.Name ++ (" = ".toList ++ Quote table p.Rule)) <:+:
          (getPoliciesHandler (addPolicyHandler table (Except.ok p) f).2).body) ∧
    (∀ err, addPolicyHandler table (Except.error err) f =
        ({ status := 400, body := "Invalid JSON payload".toList ++ ['\n'] }, f)) ∧
    (∀ (p : Policy) (err : GoError), f.content = Except.error err →
        addPolicyHandler table (Except.ok p) f =
          ({ status := 500, body := failedToRead err ++ ['\n'] }, f)) := by
  refine ⟨?_, ?_, ?_⟩
  · intro p content hread hwrite
    rw [addPolicyHandler_ok table p content f hread hwrite]
    refine ⟨rfl, rfl, ⟨escapeAll table p.Rule, rfl, escapeAll_no_newline table p.Rule⟩,
      rfl, ?_, ?_⟩
    · exact List.prefix_append _ _
    · exact ⟨content ++ ['\n'], [], by simp [getPoliciesHandler, ruleEntry]⟩
  · intro err
    rfl
  · intro p err hread
    simp [addPolicyHandler, hread, httpError, StatusInternalServerError]

/-- C8, Scenario 1: appending the rule `allow-nginx` to a file that holds one rule. -/
theorem addPolicyHandler_appends_witness :
    (addPolicyHandler allPrintable
        (Except.ok
          { Name := "allow-nginx".toList, Rule := "input.docker_image.name == \"nginx\"".toList })
        (fileWith "db = \"c\"".toList)).2.content =
      Except.ok
        "db = \"c\"\nallow-nginx = \"input.docker_image.name == \\\"nginx\\\"\"".toList :=
  ((addPolicyHandler_appends allPrintable (fileWith "db = \"c\"".toList)).1
      { Name := "allow-nginx".toList, Rule := "input.docker_image.name == \"nginx\"".toList }
      "db = \"c\"".toList rfl rfl).2.1.trans (congrArg Except.ok (by decide))

theorem IsEntry_length (line : GoString) (h : IsEntry line) : 5 ≤ line.length := by
  obtain ⟨name, body, _, _, rfl⟩ := h
  simp
  omega

theorem IsEntry_ruleLine (table : Char → Bool) (p : Policy) (hname : '\n' ∉ p.Name) :
    IsEntry (p.Name ++ (" = ".toList ++ Quote table p.Rule)) :=
  ⟨p.Name, escapeAll table p.Rule, hname, escapeAll_no_newline table p.Rule, rfl⟩

theorem ruleLine_no_newline (table : Char → Bool) (p : Policy) (hname : '\n' ∉ p.Name) :
    '\n' ∉ p.Name ++ (" = ".toList ++ Quote table p.Rule) := by
  have hq := Quote_no_newline table p.Rule
  simp [hname, hq]

theorem WellFormed_terminated_keptLines (name content : GoString) (hwf : WellFormed content) :
    WellFormed (terminated (keptLines name content)) := by
  intro line hline hne
  rw [Split_terminated (keptLines name content)
    (fun l h => no_newline_of_mem_keptLines name content l h)] at hline
  rcases List.mem_append.1 hline with h | h
  · exact hwf line (List.mem_filter.1 h).1 hne
  · exact absurd (by simpa using h) hne

/-- C9, refuted as stated: appending the rule named `a\nb` (a name the JSON body
`{"name":"a\nb","rule":"x"}` decodes to) to the empty, well-formed file succeeds with 201 and
leaves a file whose line `a` is not an entry; the append added two non-empty lines, not one. -/
theorem addPolicyHandler_newline_name_breaks_format :
    WellFormed [] ∧
    (addPolicyHandler allPrintable (Except.ok { Name := "a\nb".toList, Rule := "x".toList })
        (fileWith [])).1 = { status := 201, body := [] } ∧
    (addPolicyHandler allPrintable (Except.ok { Name := "a\nb".toList, Rule := "x".toList })
        (fileWith [])).2.content = Except.ok "\na\nb = \"x\"".toList ∧
    Split "\na\nb = \"x\"".toList = [[], "a".toList, "b = \"x\"".toList] ∧
    ¬ WellFormed "\na\nb = \"x\"".toList := by
  refine ⟨?_, rfl, congrArg Except.ok (by decide), by decide, ?_⟩
  · intro line hline hne
    have hl : line = [] := by simpa [Split] using hline
    exact absurd hl hne
  · intro hwf
    have h := IsEntry_length "a".toList (hwf "a".toList (by decide) (by decide))
    exact absurd h (by decide)

/-- C9, amended: on a file in which every non-empty line is an entry `<name> = "<body>"`, a
successful Append of a rule whose name contains no newline (any body, with whitespace or
newlines) leaves such a file and adds exactly one line, which is the entry of the rule; and a
successful Remove of any name leaves such a file. -/
theorem ruleFile_format_invariant (table : Char → Bool) (f : RegoFile) (content : GoString)
    (hread : f.content = Except.ok content) (hwrite : f.writeError = none)
    (hwf : WellFormed content) :
    (∀ p : Policy, '\n' ∉ p.Name →
        ∃ updated, (addPolicyHandler table (Except.ok p) f).2.content = Except.ok updated ∧
          WellFormed updated ∧
          Split updated = Split content ++ [p.Name ++ (" = ".toList ++ Quote table p.Rule)] ∧
          IsEntry (p.Name ++ (" = ".toList ++ Quote table p.Rule))) ∧
    (∀ name : GoString,
        ∃ updated, (deletePolicyHandler name f).2.content = Except.ok updated ∧
          WellFormed updated) := by
  constructor
  · intro p hname
    have hsplit : Split (content ++ ruleEntry table p) =
        Split content ++ [p.Name ++ (" = ".toList ++ Quote table p.Rule)] := by
      rw [ruleEntry, Split_append_newline,
        Split_of_no_newline _ (ruleLine_no_newline table p hname)]
    refine ⟨content ++ ruleEntry table p, ?_, ?_, hsplit, IsEntry_ruleLine table p hname⟩
    · rw [addPolicyHandler_ok table p content f hread hwrite]
    · intro line hline hne
      rw [hsplit] at hline
      rcases List.mem_append.1 hline with h | h
      · exact hwf line h hne
      · have hl : line = p.Name ++ (" = ".toList ++ Quote table p.Rule) := by simpa using h
        rw [hl]
        exact IsEntry_ruleLine table p hname
  · intro name
    refine ⟨terminated (keptLines name content), ?_,
      WellFormed_terminated_keptLines name content hwf⟩
    rw [deletePolicyHandler_ok name content f hread hwrite]

/-- C9, amended, on a concrete file: the empty file is well formed, and appending the rule
`allow-all` with a body that holds a newline adds the single line `allow-all = "x\ny"`. -/
theorem ruleFile_format_invariant_witness :
    ∃ updated,
      (addPolicyHandler allPrintable
          (Except.ok { Name := "allow-all".toList, Rule := "x\ny".toList })
          (fileWith [])).2.content = Except.ok updated ∧
      WellFormed updated ∧
      Split updated = Split [] ++ ["allow-all".toList ++ (" = ".toList ++
        Quote allPrintable "x\ny".toList)] ∧
      IsEntry ("allow-all".toList ++ (" = ".toList ++ Quote allPrintable "x\ny".toList)) :=
  (ruleFile_format_invariant allPrintable (fileWith []) [] rfl rfl
      (fun line hline hne => absurd (by simpa [Split] using hline) hne)).1
    { Name := "allow-all".toList, Rule := "x\ny".toList } (by decide)

/-! ## Theorems: the admission gate -/

theorem admitPodCreation_of_resultSet (k : Admission) (review : AdmissionReview)
    (req : AdmissionRequest) (obj : RawExtension) (resultSet : List Result)
    (hreq : review.Request = some req) (hun : k.unmarshal req.Object.Raw = Except.ok obj)
    (hev : k.eval req.Namespace req.Operation obj.Object = Except.ok resultSet) :
    admitPodCreation k review = Except.ok (formulate (extractDecision resultSet)) := by
  simp [admitPodCreation, hreq, hun, hev]

theorem admitPodCreation_cases (k : Admission) (review out : AdmissionReview)
    (h : admitPodCreation k review = Except.ok out) :
    (∃ err, out = toAdmissionResponse review err) ∨
      ∃ req obj resultSet, review.Request = some req ∧
        k.unmarshal req.Object.Raw = Except.ok obj ∧
        k.eval req.Namespace req.Operation obj.Object = Except.ok resultSet ∧
        out = formulate (extractDecision resultSet) := by
  unfold admitPodCreation at h
  split at h
  · cases h
  · next req hreq =>
    split at h
    · exact Or.inl ⟨_, (Except.ok.inj h).symm⟩
    · next obj hun =>
      split at h
      · exact Or.inl ⟨_, (Except.ok.inj h).symm⟩
      · next resultSet hev =>
        exact Or.inr ⟨req, obj, resultSet, hreq, hun, hev, (Except.ok.inj h).symm⟩

theorem extractDecision_eq_true (resultSet : List Result) :
    extractDecision resultSet = true ↔
      ∃ r rest, resultSet = r :: rest ∧
        r.Bindings.lookup "allow".toList = some (GoValue.bool true) := by
  cases resultSet with
  | nil => simp [extractDecision]
  | cons r rest =>
    constructor
    · intro h
      refine ⟨r, rest, rfl, ?_⟩
      rw [← mapIndex_eq_bool]
      simp only [extractDecision] at h
      cases hv : mapIndex r.Bindings "allow".toList <;> simp_all [assertBool]
    · rintro ⟨r1, rest1, h1, hl⟩
      cases h1
      simp only [extractDecision]
      rw [(mapIndex_eq_bool _ _ _).2 hl]
      rfl

theorem extractDecision_of_false (r : Result) (rest : List Result)
    (h : r.Bindings.lookup "allow".toList = some (GoValue.bool false)) :
    extractDecision (r :: rest) = false := by
  simp only [extractDecision]
  rw [(mapIndex_eq_bool _ _ _).2 h]
  rfl

theorem extractDecision_missing (resultSet : List Result)
    (h : resultSet = [] ∨ ∃ r rest, resultSet = r :: rest ∧
      ∀ b, r.Bindings.lookup "allow".toList ≠ some (GoValue.bool b)) :
    extractDecision resultSet = false := by
  rcases h with h | ⟨r, rest, h, hno⟩
  · subst h
    rfl
  · cases hd : extractDecision resultSet
    · rfl
    · obtain ⟨r1, rest1, h1, hl⟩ := (extractDecision_eq_true resultSet).1 hd
      rw [h] at h1
      cases h1
      exact absurd hl (hno true)

theorem toAdmissionResponse_ne_formulate (review : AdmissionReview) (err : GoError)
    (decision : Bool) : toAdmissionResponse review err ≠ formulate decision := by
  cases decision <;> simp [toAdmissionResponse, formulate, StatusReasonForbidden]

theorem not_HasPolicyViolation_toAdmissionResponse (review : AdmissionReview) (err : GoError) :
    ¬ HasPolicyViolation (toAdmissionResponse review err) := by
  rintro ⟨resp, st, d, hresp, hst, hreason, hd, _⟩
  simp only [toAdmissionResponse, Option.some.injEq] at hresp
  subst hresp
  simp only [Option.some.injEq] at hst
  subst hst
  simp at hd

theorem HasPolicyViolation_formulate_false : HasPolicyViolation (formulate false) :=
  ⟨_, _, _, rfl, rfl, rfl, rfl, _, List.mem_singleton.2 rfl, rfl⟩

/-- C4, refuted as stated: for an empty result set, and for a first result whose `allow`
binding is a string, `admitPodCreation` returns the very response it returns for the verdict
false: `Denied by policy` with reason `Forbidden` and a `PolicyViolation` cause, which no call of
`toAdmissionResponse` produces. -/
theorem admitPodCreation_missing_verdict_not_fault :
    admitPodCreation (constAdmission (Except.ok [])) (podReview "u1".toList) =
      admitPodCreation
        (constAdmission (Except.ok [{ Bindings := [("allow".toList, GoValue.bool false)] }]))
        (podReview "u1".toList) ∧
    admitPodCreation
        (constAdmission
          (Except.ok [{ Bindings := [("allow".toList, GoValue.string "yes".toList)] }]))
        (podReview "u1".toList) =
      admitPodCreation (constAdmission (Except.ok [])) (podReview "u1".toList) ∧
    (∃ out resp st, admitPodCreation (constAdmission (Except.ok [])) (podReview "u1".toList) =
        Except.ok out ∧ out.Response = some resp ∧ resp.Result = some st ∧
        st.Message = "Denied by policy".toList ∧ HasPolicyViolation out ∧
        ∀ err, out ≠ toAdmissionResponse (podReview "u1".toList) err) :=
  ⟨rfl, rfl, _, _, _, rfl, rfl, rfl, rfl, HasPolicyViolation_formulate_false,
    fun err => (toAdmissionResponse_ne_formulate _ err false).symm⟩

/-- C4, amended: for every admission review with a request whose payload decodes, and every
engine result set that is empty or whose first result has no boolean `allow` binding (absent or
wrong-typed), `admitPodCreation` returns the policy-deny response (`Allowed` false, message
`Denied by policy`, reason `Forbidden`, cause `PolicyViolation`), the same as for an explicit
false verdict; the missing verdict defaults to deny. -/
theorem admitPodCreation_missing_verdict_denies (k : Admission) (review : AdmissionReview)
    (req : AdmissionRequest) (obj : RawExtension) (resultSet : List Result)
    (hreq : review.Request = some req) (hun : k.unmarshal req.Object.Raw = Except.ok obj)
    (hev : k.eval req.Namespace req.Operation obj.Object = Except.ok resultSet)
    (hmissing : resultSet = [] ∨ ∃ r rest, resultSet = r :: rest ∧
      ∀ b, r.Bindings.lookup "allow".toList ≠ some (GoValue.bool b)) :
    ∃ out resp st, admitPodCreation k review = Except.ok out ∧
      out.Response = some resp ∧ resp.Allowed = false ∧ resp.Result = some st ∧
      st.Status = StatusFailure ∧ st.Message = "Denied by policy".toList ∧
      st.Reason = StatusReasonForbidden ∧
      st.Details = some { Causes := [{ Type_ := "PolicyViolation".toList
                                       Message := "Pod creation denied by policy".toList }] } ∧
      (∀ (k2 : Admission) (r : Result) (rest : List Result),
        k2.unmarshal req.Object.Raw = Except.ok obj →
        k2.eval req.Namespace req.Operation obj.Object = Except.ok (r :: rest) →
        r.Bindings.lookup "allow".toList = some (GoValue.bool false) →
        admitPodCreation k2 review = Except.ok out) := by
  refine ⟨formulate false, _, _, ?_, rfl, rfl, rfl, rfl, rfl, rfl, rfl, ?_⟩
  · rw [admitPodCreation_of_resultSet k review req obj resultSet hreq hun hev,
      extractDecision_missing resultSet hmissing]
  · intro k2 r rest hun2 hev2 hfalse
    rw [admitPodCreation_of_resultSet k2 review req obj (r :: rest) hreq hun2 hev2,
      extractDecision_of_false r rest hfalse]

/-- C4, amended, on a concrete review: an empty result set is answered with the policy-deny
response. -/
theorem admitPodCreation_missing_verdict_denies_witness :
    ∃ out resp st,
      admitPodCreation (constAdmission (Except.ok [])) (podReview "u1".toList) = Except.ok out ∧
      out.Response = some resp ∧ resp.Allowed = false ∧ resp.Result = some st ∧
      st.Message = "Denied by policy".toList ∧ st.Reason = StatusReasonForbidden := by
  obtain ⟨out, resp, st, h, hresp, hallowed, hst, _, hmsg, hreason, _⟩ :=
    admitPodCreation_missing_verdict_denies (constAdmission (Except.ok []))
      (podReview "u1".toList)
      { UID := "u1".toList, Namespace := "default".toList, Operation := "CREATE".toList
        Object := { Raw := ['{', '}'] } }
      { Raw := ['{', '}'] } [] rfl rfl rfl (Or.inl rfl)
  exact ⟨out, resp, st, h, hresp, hallowed, hst, hmsg, hreason⟩

/-- C5, refuted as stated: for a request with UID `u1`, the response on the allow path, on the
deny path and on a fault path carries a UID different from `u1`. -/
theorem admitPodCreation_drops_uid :
    (∃ out resp,
      admitPodCreation
          (constAdmission (Except.ok [{ Bindings := [("allow".toList, GoValue.bool true)] }]))
          (podReview "u1".toList) = Except.ok out ∧
      out.Response = some resp ∧ resp.Allowed = true ∧ resp.UID ≠ "u1".toList) ∧
    (∃ out resp,
      admitPodCreation
          (constAdmission (Except.ok [{ Bindings := [("allow".toList, GoValue.bool false)] }]))
          (podReview "u1".toList) = Except.ok out ∧
      out.Response = some resp ∧ resp.Allowed = false ∧ resp.UID ≠ "u1".toList) ∧
    (∃ out resp,
      admitPodCreation (constAdmission (Except.error "timeout".toList))
          (podReview "u1".toList) = Except.ok out ∧
      out = toAdmissionResponse (podReview "u1".toList)
        ("policy evaluation error: ".toList ++ "timeout".toList) ∧
      out.Response = some resp ∧ resp.UID ≠ "u1".toList) :=
  ⟨⟨_, _, rfl, rfl, rfl, by decide⟩, ⟨_, _, rfl, rfl, rfl, by decide⟩,
    ⟨_, _, rfl, rfl, rfl, by decide⟩⟩

/-- C5, amended: the admission review returned by `admitPodCreation` on the allow path, the deny
path and every fault path, and every review built by `toAdmissionResponse`, carries a response
with the empty UID and carries no request, whatever the UID of the request; the response
carries the identity of the request only when that identity is empty. -/
theorem admitPodCreation_uid_empty (k : Admission) (review out : AdmissionReview)
    (h : admitPodCreation k review = Except.ok out) :
    (∃ resp, out.Response = some resp ∧ resp.UID = [] ∧ out.Request = none ∧
      ∀ req, review.Request = some req → (resp.UID = req.UID ↔ req.UID = [])) ∧
    (∀ err, ∃ resp, (toAdmissionResponse review err).Response = some resp ∧ resp.UID = [] ∧
      (toAdmissionResponse review err).Request = none) := by
  refine ⟨?_, fun err => ⟨_, rfl, rfl, rfl⟩⟩
  rcases admitPodCreation_cases k review out h with ⟨err, rfl⟩ | ⟨req, obj, rs, _, _, _, rfl⟩
  · exact ⟨_, rfl, rfl, rfl, fun req _ => eq_comm⟩
  · cases extractDecision rs
    · exact ⟨_, rfl, rfl, rfl, fun req _ => eq_comm⟩
    · exact ⟨_, rfl, rfl, rfl, fun req _ => eq_comm⟩

/-- C5, amended, on a concrete review: the allow response to the request `u1` has the empty
UID. -/
theorem admitPodCreation_uid_empty_witness :
    ∃ resp, (formulate true).Response = some resp ∧ resp.UID = [] ∧
      (formulate true).Request = none ∧
      ∀ req, (podReview "u1".toList).Request = some req → (resp.UID = req.UID ↔ req.UID = []) :=
  (admitPodCreation_uid_empty
    (constAdmission (Except.ok [{ Bindings := [("allow".toList, GoValue.bool true)] }]))
    (podReview "u1".toList) (formulate true) rfl).1

/-- C6: the response `admitPodCreation` builds for the verdict false has `Allowed` false and the
reason `Forbidden` with a cause of type `PolicyViolation`; `toAdmissionResponse review err` has
`Allowed` false, the message of `err`, an empty reason and no details, so it has neither that
reason nor that cause, for every review and every error. The two responses are therefore
different, and a response of `admitPodCreation` has `Allowed` true exactly when the first result
binds `allow` to true, in which case it is the allow response. -/
theorem deny_and_fault_never_conflated (k : Admission) (review : AdmissionReview)
    (err : GoError) :
    (∀ req obj r rest, review.Request = some req →
        k.unmarshal req.Object.Raw = Except.ok obj →
        k.eval req.Namespace req.Operation obj.Object = Except.ok (r :: rest) →
        r.Bindings.lookup "allow".toList = some (GoValue.bool false) →
        ∃ out resp st, admitPodCreation k review = Except.ok out ∧
          out.Response = some resp ∧ resp.Allowed = false ∧ resp.Result = some st ∧
          st.Reason = StatusReasonForbidden ∧
          st.Details = some { Causes := [{ Type_ := "PolicyViolation".toList
                                           Message := "Pod creation denied by policy".toList }] } ∧
          HasPolicyViolation out ∧
          ∀ review2 err2, toAdmissionResponse review2 err2 ≠ out) ∧
    (∃ resp st, (toAdmissionResponse review err).Response = some resp ∧
        resp.Allowed = false ∧ resp.Result = some st ∧ st.Message = err ∧
        st.Reason = [] ∧ st.Reason ≠ StatusReasonForbidden ∧ st.Details = none) ∧
    ¬ HasPolicyViolation (toAdmissionResponse review err) ∧
    (∀ out resp, admitPodCreation k review = Except.ok out → out.Response = some resp →
        (resp.Allowed = true ↔
          ∃ req obj r rest, review.Request = some req ∧
            k.unmarshal req.Object.Raw = Except.ok obj ∧
            k.eval req.Namespace req.Operation obj.Object = Except.ok (r :: rest) ∧
            r.Bindings.lookup "allow".toList = some (GoValue.bool true) ∧
            out = formulate true)) := by
  refine ⟨?_, ⟨_, _, rfl, rfl, rfl, rfl, rfl, ?_, rfl⟩,
    not_HasPolicyViolation_toAdmissionResponse review err, ?_⟩
  · intro req obj r rest hreq hun hev hfalse
    refine ⟨formulate false, _, _, ?_, rfl, rfl, rfl, rfl, rfl,
      HasPolicyViolation_formulate_false,
      fun review2 err2 => toAdmissionResponse_ne_formulate review2 err2 false⟩
    rw [admitPodCreation_of_resultSet k review req obj (r :: rest) hreq hun hev,
      extractDecision_of_false r rest hfalse]
  · simp [StatusReasonForbidden]
  · intro out resp h hresp
    rcases admitPodCreation_cases k review out h with
      ⟨err1, rfl⟩ | ⟨req, obj, rs, hreq, hun, hev, rfl⟩
    · have hr : resp.Allowed = false := by
        simp only [toAdmissionResponse, Option.some.injEq] at hresp
        rw [← hresp]
      constructor
      · intro ht
        rw [hr] at ht
        cases ht
      · rintro ⟨_, _, _, _, _, _, _, _, hout⟩
        exact absurd hout (toAdmissionResponse_ne_formulate review err1 true)
    · cases hd : extractDecision rs
      · have hr : resp.Allowed = false := by
          rw [hd] at hresp
          simp only [formulate, Option.some.injEq] at hresp
          rw [← hresp]
          rfl
        constructor
        · intro ht
          rw [hr] at ht
          cases ht
        · rintro ⟨req1, obj1, r, rest, hreq1, hun1, hev1, htrue, _⟩
          rw [hreq] at hreq1
          cases hreq1
          rw [hun] at hun1
          cases hun1
          rw [hev] at hev1
          cases hev1
          have := (extractDecision_eq_true (r :: rest)).2 ⟨r, rest, rfl, htrue⟩
          rw [hd] at this
          cases this
      · have hr : resp.Allowed = true := by
          rw [hd] at hresp
          simp only [formulate, Option.some.injEq] at hresp
          rw [← hresp]
          rfl
        obtain ⟨r, rest, hrs, htrue⟩ := (extractDecision_eq_true rs).1 hd
        subst hrs
        exact ⟨fun _ => ⟨req, obj, r, rest, hreq, hun, hev, htrue, rfl⟩, fun _ => hr⟩

/-- C6, on a concrete review: the response to an explicit false verdict carries the
policy-violation block and differs from every fault response. -/
theorem deny_and_fault_never_conflated_witness :
    ∃ out resp,
      admitPodCreation
          (constAdmission (Except.ok [{ Bindings := [("allow".toList, GoValue.bool false)] }]))
          (podReview "u1".toList) = Except.ok out ∧
      out.Response = some resp ∧ resp.Allowed = false ∧ HasPolicyViolation out ∧
      ∀ review2 err2, toAdmissionResponse review2 err2 ≠ out := by
  obtain ⟨out, resp, st, h, hresp, hallowed, _, _, _, hpv, hne⟩ :=
    (deny_and_fault_never_conflated
      (constAdmission (Except.ok [{ Bindings := [("allow".toList, GoValue.bool false)] }]))
      (podReview "u1".toList) []).1
      { UID := "u1".toList, Namespace := "default".toList, Operation := "CREATE".toList
        Object := { Raw := ['{', '}'] } }
      { Raw := ['{', '}'] } { Bindings := [("allow".toList, GoValue.bool false)] } []
      rfl rfl rfl rfl
  exact ⟨out, resp, h, hresp, hallowed, hpv, hne⟩

/-- C10, the failing input: on an admission review whose `request` is nil (what the body `{}`
decodes to), `admitPodCreation` panics with a nil pointer dereference and returns no response,
whatever the collaborators do; it returns a response exactly when the request is present. -/
theorem admitPodCreation_nil_request_panics (k : Admission) :
    admitPodCreation k { Request := none, Response := none } =
      Except.error GoPanic.nilPointerDereference ∧
    ∀ review, (∃ out, admitPodCreation k review = Except.ok out) ↔ review.Request ≠ none := by
  refine ⟨rfl, fun review => ?_⟩
  constructor
  · rintro ⟨out, h⟩ hnone
    simp [admitPodCreation, hnone] at h
  · intro hsome
    cases hreq : review.Request with
    | none => exact absurd hreq hsome
    | some req =>
      cases hun : k.unmarshal req.Object.Raw with
      | error e =>
        exact ⟨toAdmissionResponse review ("failed to unmarshal pod: ".toList ++ e), by
          simp [admitPodCreation, hreq, hun]⟩
      | ok obj =>
        cases hev : k.eval req.Namespace req.Operation obj.Object with
        | error e =>
          exact ⟨toAdmissionResponse review ("policy evaluation error: ".toList ++ e), by
            simp [admitPodCreation, hreq, hun, hev]⟩
        | ok rs => exact ⟨_, admitPodCreation_of_resultSet k review req obj rs hreq hun hev⟩

end OpaGateway
